import Mathlib

/-!
Verification of the tool-arbitration core of the ByteSmith coding assistant.

The development shallowly embeds:
* `src/byte/domain/agent/reducers.py` — the two state merge rules
  (`replace_list`, `add_constraints`);
* `src/byte/domain/agent/nodes/tool_node.py` — `ToolNode.__call__`, the
  per-turn confirm / execute / review loop over the tool calls of the last
  assistant message.

Conventions of the embedding:
* Python `None` for an optional list becomes `Option (List _)`.
* JSON values are the inductive `Json` below; `Json.dumps` mirrors
  `json.dumps` with its default separators.
* The two interactive yes/no prompts are modelled as two oracles
  `confirm keep : Nat → Bool`, indexed by the position of the tool call in
  the batch; the number of prompts issued is tracked in the result.
* Tool invocation (`ainvoke`) may raise: a tool's `run` returns
  `Except String Json`, and an `Except.error` propagates out of the whole
  call, exactly as an uncaught Python exception would (the source has no
  try/except).  A tool name missing from the catalog likewise raises
  (Python `KeyError` on the dict built by `tools_by_name`).
* Console rendering (`console.print_panel`) has no observable effect on the
  returned command and is not modelled; the trace of actual tool
  invocations and the number of operator prompts are returned alongside the
  `Command` so that "tool X was never invoked / no prompt was issued"
  claims are statable.
-/

/-- JSON values, the payloads carried by tool arguments and results. -/
inductive Json where
  | null : Json
  | bool : Bool → Json
  | num : Int → Json
  | str : String → Json
  | arr : List Json → Json
  | obj : List (String × Json) → Json

/-- Escape one character the way `json.dumps` escapes the characters that
matter here (quote and backslash). -/
def escapeChar (c : Char) : String :=
  if c = '"' then "\\\"" else if c = '\\' then "\\\\" else String.singleton c

/-- Escape a string for inclusion in a JSON document. -/
def escapeString (s : String) : String :=
  String.join (s.data.map escapeChar)

mutual

/-- `json.dumps` with the default separators. -/
def Json.dumps : Json → String
  | .null => "null"
  | .bool true => "true"
  | .bool false => "false"
  | .num n => toString n
  | .str s => "\"" ++ escapeString s ++ "\""
  | .arr xs => "[" ++ Json.dumpsList xs ++ "]"
  | .obj kvs => "\x7b" ++ Json.dumpsObj kvs ++ "\x7d"

/-- Serialize the elements of a JSON array, comma separated. -/
def Json.dumpsList : List Json → String
  | [] => ""
  | [x] => Json.dumps x
  | x :: y :: rest => Json.dumps x ++ ", " ++ Json.dumpsList (y :: rest)

/-- Serialize the members of a JSON object, comma separated. -/
def Json.dumpsObj : List (String × Json) → String
  | [] => ""
  | [(k, v)] => "\"" ++ escapeString k ++ "\": " ++ Json.dumps v
  | (k, v) :: m :: rest =>
      "\"" ++ escapeString k ++ "\": " ++ Json.dumps v ++ ", " ++ Json.dumpsObj (m :: rest)

end

/-- The constraint record constructed for a declined tool call.  The schema
class lives in `byte/domain/agent/schemas.py` (not part of the shown core);
its three fields are exactly the keyword arguments passed at the single
construction site in `tool_node.py`.  The spec's names `kind` and `origin`
correspond to the fields `type` and `source` here. -/
structure ConstraintSchema where
  type : String
  description : String
  source : String
deriving DecidableEq, Repr

/-- `replace_list` from `reducers.py`: the reducer that replaces the entire
list with the new values. -/
def replace_list (left : Option (List α)) (right : List α) : List α :=
  let _ := left
  right

/-- `add_constraints` from `reducers.py`: the reducer that accumulates
constraints; an uninitialized (`None`) current value yields the incoming
list, otherwise the incoming list is appended after the current one. -/
def add_constraints (left : Option (List ConstraintSchema))
    (right : List ConstraintSchema) : List ConstraintSchema :=
  match left with
  | none => right
  | some l => l ++ right

/-- One tool-call request carried by an assistant message:
`tool_call["name"]`, `tool_call["args"]`, `tool_call["id"]`. -/
structure ToolCall where
  name : String
  args : Json
  id : String

/-- The last assistant message under arbitration: its stable identity
(`message.id`) and its `message.tool_calls`. -/
structure AssistantMessage where
  id : String
  tool_calls : List ToolCall

/-- An invocable tool of the catalog: its `name` and its `ainvoke`.
`run` returning `Except.error e` models `ainvoke` raising exception `e`. -/
structure Tool where
  name : String
  run : Json → Except String Json

/-- One entry of the `messages` list of the returned update: either a
`ToolMessage(content, name, tool_call_id)` or a `RemoveMessage(id)`. -/
inductive MsgUpdate where
  | toolMsg (content : String) (name : String) (tool_call_id : String)
  | removeMsg (id : String)
deriving DecidableEq, Repr

/-- The `Command` returned by `ToolNode.__call__`: the `goto` destination,
the `messages` entry of the update dict, and its `constraints` entry
(`none` when the key is absent from the dict). -/
structure Command where
  goto : String
  messages : List MsgUpdate
  constraints : Option (List ConstraintSchema)
deriving DecidableEq, Repr

/-- The observable outcome of one arbitration: the returned command plus
the trace of tool invocations actually performed (name and arguments, in
order) and the number of yes/no operator prompts issued. -/
structure CallOutcome where
  cmd : Command
  invoked : List (String × Json)
  prompts : Nat

/-- `tools_by_name[n]`, as an `Option`: the dict comprehension
`\x7btool.name: tool for tool in tools\x7d` lets a later tool with the
same name overwrite an earlier one, so lookup returns the last match. -/
def tools_by_name_get (tools : List Tool) (n : String) : Option Tool :=
  tools.reverse.find? (fun t => t.name == n)

/-- `tools_by_name[tool_call["name"]].ainvoke(tool_call["args"])`: a
missing name raises `KeyError` (modelled as an `Except.error`), and an
exception raised by the tool propagates unchanged — the source wraps the
invocation in no try/except. -/
def resolveRun (tools : List Tool) (tc : ToolCall) : Except String Json :=
  match tools_by_name_get tools tc.name with
  | none => .error ("KeyError: " ++ tc.name)
  | some t => t.run tc.args

/-- The synthetic placeholder `\x7b"result": "User declined tool call."\x7d`
assigned to `tool_result` on decline; the source constructs it and then
returns without ever appending it to `outputs`. -/
def declinedPlaceholder : Json :=
  Json.obj [("result", Json.str "User declined tool call.")]

/-- The synthetic placeholder substituted when the operator rejects a raw
result at the review step. -/
def discardPlaceholder : Json :=
  Json.obj [("result", Json.str "User did not find the results useful for the task.")]

/-- The `ConstraintSchema(type="avoid", description=f"Do not use ... with
arguments: ...", source="declined_tool")` built for a declined call. -/
def constraintFor (tc : ToolCall) : ConstraintSchema :=
  { type := "avoid"
    description := "Do not use " ++ tc.name ++ " with arguments: " ++ Json.dumps tc.args
    source := "declined_tool" }

/-- The per-call loop of `ToolNode.__call__`.  `i` is the position of the
head of `calls` within the original batch (so `confirm i` / `keep i` are
the operator's answers to the two prompts for that call); `outputs`,
`invoked` and `prompts` accumulate the `ToolMessage` list, the invocation
trace and the prompt count.  Declining terminates the whole loop with a
`RemoveMessage` of the assistant message and one constraint; an exception
from `ainvoke` (or a `KeyError`) propagates. -/
def toolLoop (tools : List Tool) (msgId : String) (confirm keep : Nat → Bool) :
    Nat → List ToolCall → List MsgUpdate → List (String × Json) → Nat →
    Except String CallOutcome
  | _, [], outputs, invoked, prompts =>
      .ok ⟨⟨"assistant_node", outputs, none⟩, invoked, prompts⟩
  | i, tc :: rest, outputs, invoked, prompts =>
      if confirm i then
        match resolveRun tools tc with
        | .error e => .error e
        | .ok raw =>
            let tool_result := if keep i then raw else discardPlaceholder
            toolLoop tools msgId confirm keep (i + 1) rest
              (outputs ++ [.toolMsg (Json.dumps tool_result) tc.name tc.id])
              (invoked ++ [(tc.name, tc.args)])
              (prompts + 2)
      else
        let _ := declinedPlaceholder
        .ok ⟨⟨"assistant_node", [.removeMsg msgId], some [constraintFor tc]⟩,
          invoked, prompts + 1⟩

/-- `ToolNode.__call__`: with an empty catalog it returns the no-op
pass-through `Command(goto="assistant_node", update=\x7b"messages": []\x7d)`
at once; otherwise it runs the per-call loop over the assistant message's
tool calls.  The spec's destination name "assistant" is the code's
`"assistant_node"`. -/
def toolNodeCall (message : AssistantMessage) (tools : List Tool)
    (confirm keep : Nat → Bool) : Except String CallOutcome :=
  if tools.isEmpty then
    .ok ⟨⟨"assistant_node", [], none⟩, [], 0⟩
  else
    toolLoop tools message.id confirm keep 0 message.tool_calls [] [] 0

/-- The projection used to compare an update's messages with the requests:
a `ToolMessage` yields its `(name, tool_call_id)`, a `RemoveMessage`
yields `none`. -/
def MsgUpdate.callKey : MsgUpdate → Option (String × String)
  | .toolMsg _ n i => some (n, i)
  | .removeMsg _ => none

/-- The tool call at batch position `j` resolves in the catalog and its
invocation returns normally. -/
def invokeOk (tools : List Tool) (tc : ToolCall) : Prop :=
  ∃ v, resolveRun tools tc = Except.ok v

/-- A catalog tool named "search" whose invocation always succeeds. -/
def searchTool : Tool := ⟨"search", fun _ => .ok (Json.str "ok")⟩

/-- A catalog tool named "edit" whose invocation always succeeds. -/
def editTool : Tool := ⟨"edit", fun _ => .ok (Json.str "edited")⟩

/-- A catalog tool whose invocation raises (models `ainvoke` throwing). -/
def boomTool : Tool := ⟨"boom", fun _ => .error "RuntimeError: boom"⟩

/-- The request `\x7bname:"search", args:\x7bq:"x"\x7d, call_id:"1"\x7d`
of the spec's worked scenario. -/
def searchCall : ToolCall := ⟨"search", Json.obj [("q", Json.str "x")], "1"⟩

/-- The request `\x7bname:"edit", args:\x7bpath:"a.py"\x7d, call_id:"2"\x7d`
of the spec's worked scenario. -/
def editCall : ToolCall := ⟨"edit", Json.obj [("path", Json.str "a.py")], "2"⟩

/-- A request addressed to the raising tool. -/
def boomCall : ToolCall := ⟨"boom", Json.obj [], "3"⟩

/-- An assistant message proposing the two scenario calls. -/
def msgTwo : AssistantMessage := ⟨"m1", [searchCall, editCall]⟩

/-- An assistant message proposing one call to the raising tool. -/
def msgBoom : AssistantMessage := ⟨"m2", [boomCall]⟩

/-- An assistant message proposing no tool calls at all. -/
def msgNone : AssistantMessage := ⟨"m3", []⟩

/-- Operator oracle answering yes to every prompt. -/
def allYes : Nat → Bool := fun _ => true

/-- Operator oracle answering no to every prompt. -/
def allNo : Nat → Bool := fun _ => false

/-- Operator oracle accepting call 0 and declining every later call. -/
def yesThenNo : Nat → Bool := fun j => decide (j = 0)

/-- C7: the accumulate rule appends incoming after current, collapses an
empty or uninitialized current to the incoming list, and is associative in
the sense `merge_append(merge_append(X, Y), Z) = merge_append(X, Y ++ Z)`. -/
theorem C7_add_constraints_append_assoc
    (X : Option (List ConstraintSchema)) (l Y Z : List ConstraintSchema) :
    add_constraints (some l) Y = l ++ Y ∧
    add_constraints none Y = Y ∧
    add_constraints (some []) Y = Y ∧
    add_constraints (some (add_constraints X Y)) Z = add_constraints X (Y ++ Z) := by
  refine ⟨rfl, rfl, rfl, ?_⟩
  cases X <;> simp [add_constraints]

/-- C8: the replace rule returns the incoming value unconditionally, hence
applying it twice with the same incoming value yields that value both
times. -/
theorem C8_replace_list_incoming_idem (l : Option (List α)) (r : List α) :
    replace_list l r = r ∧
    replace_list (some (replace_list l r)) r = r :=
  ⟨rfl, rfl⟩

/-- C9: under the accumulate rule the existing constraints form a prefix of
the merged result, element by element in their original order, and every
incoming constraint is present: the merge drops, reorders and loses
nothing. -/
theorem C9_add_constraints_append_only
    (l r : List ConstraintSchema) :
    add_constraints (some l) r = l ++ r ∧
    (∀ i, i < l.length → (add_constraints (some l) r)[i]? = l[i]?) ∧
    (∀ c ∈ r, c ∈ add_constraints (some l) r) := by
  refine ⟨rfl, ?_, ?_⟩
  · intro i hi
    simp [add_constraints, List.getElem?_append_left hi]
  · intro c hc
    simp [add_constraints, hc]

/-- Witness for C9 at concrete lists. -/
theorem C9_add_constraints_append_only_witness :
    add_constraints (some [⟨"avoid", "a", "declined_tool"⟩]) [⟨"avoid", "b", "declined_tool"⟩]
      = [⟨"avoid", "a", "declined_tool"⟩, ⟨"avoid", "b", "declined_tool"⟩] ∧
    (add_constraints (some [⟨"avoid", "a", "declined_tool"⟩]) [⟨"avoid", "b", "declined_tool"⟩])[0]?
      = some ⟨"avoid", "a", "declined_tool"⟩ := by
  have h := C9_add_constraints_append_only
    [⟨"avoid", "a", "declined_tool"⟩] [⟨"avoid", "b", "declined_tool"⟩]
  refine ⟨by decide, ?_⟩
  have h0 := h.2.1 0 (by decide)
  simpa using h0

/-- Characterization of the per-call loop when every call in `cs` is
confirmed and resolves and runs without raising: the loop returns the
pass-back command with one `ToolMessage` per call appended in order, no
constraints, every tool invoked exactly once in order, and two prompts per
call; the `j`-th output message carries the raw result or the discard
placeholder according to the review answer. -/
theorem toolLoop_all_ok (tools : List Tool) (msgId : String)
    (confirm keep : Nat → Bool) :
    ∀ (cs : List ToolCall) (i : Nat) (outputs : List MsgUpdate)
      (invoked : List (String × Json)) (prompts : Nat),
    (∀ j, j < cs.length → confirm (i + j) = true) →
    (∀ tc ∈ cs, invokeOk tools tc) →
    ∃ outs : List MsgUpdate,
      toolLoop tools msgId confirm keep i cs outputs invoked prompts =
        Except.ok ⟨⟨"assistant_node", outputs ++ outs, none⟩,
          invoked ++ cs.map (fun tc => (tc.name, tc.args)),
          prompts + 2 * cs.length⟩ ∧
      outs.map MsgUpdate.callKey = cs.map (fun tc => some (tc.name, tc.id)) ∧
      (∀ j tc raw, cs[j]? = some tc → resolveRun tools tc = Except.ok raw →
        outs[j]? = some (MsgUpdate.toolMsg
          (Json.dumps (if keep (i + j) then raw else discardPlaceholder))
          tc.name tc.id)) := by
  intro cs
  induction cs with
  | nil =>
      intro i outputs invoked prompts hacc hok
      refine ⟨[], by simp [toolLoop], rfl, ?_⟩
      intro j tc raw h
      simp at h
  | cons tc rest ih =>
      intro i outputs invoked prompts hacc hok
      have hc : confirm i = true := by simpa using hacc 0 (by simp)
      obtain ⟨v, hv⟩ := hok tc (by simp)
      obtain ⟨outs, hloop, hkeys, helts⟩ :=
        ih (i + 1)
          (outputs ++ [.toolMsg
            (Json.dumps (if keep i then v else discardPlaceholder)) tc.name tc.id])
          (invoked ++ [(tc.name, tc.args)]) (prompts + 2)
          (fun j hj => by
            have h := hacc (j + 1) (by simpa using hj)
            have he : i + (j + 1) = i + 1 + j := by omega
            rwa [he] at h)
          (fun tc' h => hok tc' (by simp [h]))
      refine ⟨.toolMsg
          (Json.dumps (if keep i then v else discardPlaceholder)) tc.name tc.id :: outs,
        ?_, ?_, ?_⟩
      · have hstep : toolLoop tools msgId confirm keep i (tc :: rest) outputs invoked prompts
            = toolLoop tools msgId confirm keep (i + 1) rest
                (outputs ++ [.toolMsg
                  (Json.dumps (if keep i then v else discardPlaceholder)) tc.name tc.id])
                (invoked ++ [(tc.name, tc.args)]) (prompts + 2) := by
          simp [toolLoop, hc, hv]
        rw [hstep, hloop]
        have hp : prompts + 2 + 2 * rest.length = prompts + 2 * (tc :: rest).length := by
          simp [List.length_cons]; ring
        simp [hp, List.append_assoc]
      · simp [hkeys, MsgUpdate.callKey]
      · intro j tc' raw h hres
        cases j with
        | zero =>
            simp at h
            subst h
            rw [hv] at hres
            have hrv : raw = v := by
              injection hres with h'
              exact h'.symm
            subst hrv
            simp
        | succ j =>
            have h' : rest[j]? = some tc' := by simpa using h
            have he : i + (j + 1) = i + 1 + j := by omega
            rw [he]
            simpa using helts j tc' raw h' hres

/-- Characterization of the per-call loop when the first `k` calls are
confirmed and run without raising and call `k` is declined: the loop
aborts with the `RemoveMessage` patch, exactly one constraint built from
call `k`, the invocation trace covering only the first `k` calls, and one
last prompt for the declined call. -/
theorem toolLoop_decline (tools : List Tool) (msgId : String)
    (confirm keep : Nat → Bool) :
    ∀ (k : Nat) (cs : List ToolCall) (i : Nat) (outputs : List MsgUpdate)
      (invoked : List (String × Json)) (prompts : Nat),
    k < cs.length →
    (∀ j, j < k → confirm (i + j) = true) →
    (∀ tc ∈ cs.take k, invokeOk tools tc) →
    confirm (i + k) = false →
    ∃ tc, cs[k]? = some tc ∧
      toolLoop tools msgId confirm keep i cs outputs invoked prompts =
        Except.ok ⟨⟨"assistant_node", [.removeMsg msgId], some [constraintFor tc]⟩,
          invoked ++ (cs.take k).map (fun tc => (tc.name, tc.args)),
          prompts + 2 * k + 1⟩ := by
  intro k
  induction k with
  | zero =>
      intro cs i outputs invoked prompts hk hacc hok hdec
      match cs, hk with
      | tc :: rest, _ =>
        refine ⟨tc, by simp, ?_⟩
        have hc : confirm i = false := by simpa using hdec
        simp [toolLoop, hc]
  | succ k ih =>
      intro cs i outputs invoked prompts hk hacc hok hdec
      match cs, hk with
      | tc :: rest, hk =>
        have hc : confirm i = true := by simpa using hacc 0 (Nat.succ_pos k)
        obtain ⟨v, hv⟩ := hok tc (by simp)
        obtain ⟨tc', htc', hloop⟩ :=
          ih rest (i + 1)
            (outputs ++ [.toolMsg
              (Json.dumps (if keep i then v else discardPlaceholder)) tc.name tc.id])
            (invoked ++ [(tc.name, tc.args)]) (prompts + 2)
            (by simpa using Nat.lt_of_succ_lt_succ hk)
            (fun j hj => by
              have h := hacc (j + 1) (by omega)
              have he : i + (j + 1) = i + 1 + j := by omega
              rwa [he] at h)
            (fun tc'' h => hok tc'' (by simp [h]))
            (by
              have he : i + (k + 1) = i + 1 + k := by omega
              rwa [he] at hdec)
        refine ⟨tc', by simpa using htc', ?_⟩
        have hstep : toolLoop tools msgId confirm keep i (tc :: rest) outputs invoked prompts
            = toolLoop tools msgId confirm keep (i + 1) rest
                (outputs ++ [.toolMsg
                  (Json.dumps (if keep i then v else discardPlaceholder)) tc.name tc.id])
                (invoked ++ [(tc.name, tc.args)]) (prompts + 2) := by
          simp [toolLoop, hc, hv]
        rw [hstep, hloop]
        have hp : prompts + 2 + 2 * k + 1 = prompts + 2 * (k + 1) + 1 := by ring
        simp [hp, List.append_assoc]

/-- Characterization of the per-call loop when the first `k` calls are
confirmed and run without raising, call `k` is confirmed, and call `k`'s
resolution raises `e` (a missing catalog name or a raised `ainvoke`): the
whole loop propagates the exception and produces no command at all. -/
theorem toolLoop_raises (tools : List Tool) (msgId : String)
    (confirm keep : Nat → Bool) (e : String) :
    ∀ (k : Nat) (cs : List ToolCall) (i : Nat) (outputs : List MsgUpdate)
      (invoked : List (String × Json)) (prompts : Nat),
    k < cs.length →
    (∀ j, j ≤ k → confirm (i + j) = true) →
    (∀ tc ∈ cs.take k, invokeOk tools tc) →
    (∀ tc, cs[k]? = some tc → resolveRun tools tc = Except.error e) →
    toolLoop tools msgId confirm keep i cs outputs invoked prompts = Except.error e := by
  intro k
  induction k with
  | zero =>
      intro cs i outputs invoked prompts hk hacc hok hfail
      match cs, hk with
      | tc :: rest, _ =>
        have hc : confirm i = true := by simpa using hacc 0 (Nat.le_refl 0)
        have hf : resolveRun tools tc = Except.error e := hfail tc (by simp)
        simp [toolLoop, hc, hf]
  | succ k ih =>
      intro cs i outputs invoked prompts hk hacc hok hfail
      match cs, hk with
      | tc :: rest, hk =>
        have hc : confirm i = true := by simpa using hacc 0 (Nat.zero_le _)
        obtain ⟨v, hv⟩ := hok tc (by simp)
        have hstep : toolLoop tools msgId confirm keep i (tc :: rest) outputs invoked prompts
            = toolLoop tools msgId confirm keep (i + 1) rest
                (outputs ++ [.toolMsg
                  (Json.dumps (if keep i then v else discardPlaceholder)) tc.name tc.id])
                (invoked ++ [(tc.name, tc.args)]) (prompts + 2) := by
          simp [toolLoop, hc, hv]
        rw [hstep]
        refine ih rest (i + 1) _ _ _
          (by simpa using Nat.lt_of_succ_lt_succ hk)
          (fun j hj => by
            have h := hacc (j + 1) (by omega)
            have he : i + (j + 1) = i + 1 + j := by omega
            rwa [he] at h)
          (fun tc'' h => hok tc'' (by simp [h]))
          (fun tc'' h => hfail tc'' (by simpa using h))

/-- With a non-empty catalog the entry guard is skipped and the per-call
loop runs from position 0 with empty accumulators. -/
theorem toolNodeCall_of_ne_nil (message : AssistantMessage) (tools : List Tool)
    (confirm keep : Nat → Bool) (hne : tools ≠ []) :
    toolNodeCall message tools confirm keep =
      toolLoop tools message.id confirm keep 0 message.tool_calls [] [] 0 := by
  have h : tools.isEmpty = false := by
    cases tools with
    | nil => exact absurd rfl hne
    | cons t ts => rfl
  simp [toolNodeCall, h]

/-- C1: when the operator accepts (and the tools run normally for) the
first `k` requests of the batch and declines request `k` (0-indexed,
`k < N`), the arbitration returns to the assistant with a patch holding
zero `ToolMessage` entries — only the removal-by-identity of the original
assistant message — and exactly one constraint with `type` `"avoid"` and
`source` `"declined_tool"`; the invocation trace shows only the first `k`
tools were invoked, so the tools at positions `k` and later never ran. -/
theorem C1_decline_aborts_batch (message : AssistantMessage) (tools : List Tool)
    (confirm keep : Nat → Bool) (k : Nat)
    (hne : tools ≠ [])
    (hk : k < message.tool_calls.length)
    (hacc : ∀ j, j < k → confirm j = true)
    (hok : ∀ tc ∈ message.tool_calls.take k, invokeOk tools tc)
    (hdec : confirm k = false) :
    ∃ tc r, message.tool_calls[k]? = some tc ∧
      toolNodeCall message tools confirm keep = Except.ok r ∧
      r.cmd.goto = "assistant_node" ∧
      r.cmd.messages = [.removeMsg message.id] ∧
      r.cmd.constraints = some [constraintFor tc] ∧
      (constraintFor tc).type = "avoid" ∧
      (constraintFor tc).source = "declined_tool" ∧
      r.invoked = (message.tool_calls.take k).map (fun tc => (tc.name, tc.args)) := by
  obtain ⟨tc, htc, hloop⟩ := toolLoop_decline tools message.id confirm keep k
    message.tool_calls 0 [] [] 0 hk
    (fun j hj => by simpa using hacc j hj)
    hok (by simpa using hdec)
  refine ⟨tc, _, htc,
    by rw [toolNodeCall_of_ne_nil message tools confirm keep hne]; exact hloop,
    rfl, rfl, rfl, rfl, rfl, by simp⟩

/-- Witness for C1: the spec's worked scenario — accept and keep the
"search" call, decline the "edit" call. -/
theorem C1_decline_aborts_batch_witness :
    ∃ tc r, (msgTwo.tool_calls)[1]? = some tc ∧
      toolNodeCall msgTwo [searchTool, editTool] yesThenNo allYes = Except.ok r ∧
      r.cmd.goto = "assistant_node" ∧
      r.cmd.messages = [.removeMsg msgTwo.id] ∧
      r.cmd.constraints = some [constraintFor tc] ∧
      (constraintFor tc).type = "avoid" ∧
      (constraintFor tc).source = "declined_tool" ∧
      r.invoked = (msgTwo.tool_calls.take 1).map (fun tc => (tc.name, tc.args)) :=
  C1_decline_aborts_batch msgTwo [searchTool, editTool] yesThenNo allYes 1
    (by simp)
    (by simp [msgTwo])
    (fun j hj => by
      have h0 : j = 0 := by omega
      subst h0; rfl)
    (fun tc htc => by
      have he : tc = searchCall := by simpa [msgTwo] using htc
      subst he
      exact ⟨Json.str "ok", rfl⟩)
    rfl

/-- Counterexample to C2: an accepted tool call whose invocation raises is
NOT converted into a failure-shaped `ToolResult` — the source wraps
`ainvoke` in no try/except, so the exception escapes `ToolNode.__call__`
and no routing decision (`Command`) is produced at all.  Concretely, one
accepted call to a raising tool makes the whole arbitration evaluate to
the propagated error, never to an `Except.ok`. -/
theorem C2_counterexample_raise_propagates :
    toolNodeCall msgBoom [boomTool] allYes allYes = Except.error "RuntimeError: boom" ∧
    ∀ r, toolNodeCall msgBoom [boomTool] allYes allYes ≠ Except.ok r := by
  refine ⟨rfl, ?_⟩
  intro r h
  rw [show toolNodeCall msgBoom [boomTool] allYes allYes
      = Except.error "RuntimeError: boom" from rfl] at h
  exact Except.noConfusion h

/-- C2 amended: an accepted tool call whose invocation raises (or whose
name misses the catalog) propagates the error out of the arbitration —
the batch is aborted with no routing decision, no `ToolResult` and no
constraint; the error is not converted into a decline.  (A tool that
merely returns an error-shaped value has that value recorded verbatim as
its `ToolResult` payload and processing continues, as in the all-accepted
path.) -/
theorem C2_amended_failure_propagates (message : AssistantMessage) (tools : List Tool)
    (confirm keep : Nat → Bool) (k : Nat) (e : String)
    (hne : tools ≠ [])
    (hk : k < message.tool_calls.length)
    (hacc : ∀ j, j ≤ k → confirm j = true)
    (hok : ∀ tc ∈ message.tool_calls.take k, invokeOk tools tc)
    (hfail : ∀ tc, message.tool_calls[k]? = some tc →
      resolveRun tools tc = Except.error e) :
    toolNodeCall message tools confirm keep = Except.error e := by
  rw [toolNodeCall_of_ne_nil message tools confirm keep hne]
  exact toolLoop_raises tools message.id confirm keep e k
    message.tool_calls 0 [] [] 0 hk
    (fun j hj => by simpa using hacc j hj)
    hok hfail

/-- Witness for the amended C2 at the raising tool. -/
theorem C2_amended_failure_propagates_witness :
    toolNodeCall msgBoom [boomTool] allYes allYes
      = Except.error "RuntimeError: boom" :=
  C2_amended_failure_propagates msgBoom [boomTool] allYes allYes 0 "RuntimeError: boom"
    (by simp)
    (by simp [msgBoom])
    (fun j hj => rfl)
    (fun tc htc => by simp [msgBoom] at htc)
    (fun tc h => by
      have he : boomCall = tc := by simpa [msgBoom] using h
      subst he
      rfl)

/-- C3: when the operator accepts every call and keeps every result and
each tool resolves and runs normally, the arbitration returns to the
assistant with no constraint entry and exactly one `ToolMessage` per
request, in request order (each carrying the request's name and id). -/
theorem C3_all_accepted_kept (message : AssistantMessage) (tools : List Tool)
    (confirm keep : Nat → Bool)
    (hne : tools ≠ [])
    (hacc : ∀ j, j < message.tool_calls.length → confirm j = true)
    (_hkeep : ∀ j, j < message.tool_calls.length → keep j = true)
    (hok : ∀ tc ∈ message.tool_calls, invokeOk tools tc) :
    ∃ r, toolNodeCall message tools confirm keep = Except.ok r ∧
      r.cmd.goto = "assistant_node" ∧
      r.cmd.constraints = none ∧
      r.cmd.messages.length = message.tool_calls.length ∧
      r.cmd.messages.map MsgUpdate.callKey
        = message.tool_calls.map (fun tc => some (tc.name, tc.id)) := by
  obtain ⟨outs, hloop, hkeys, _⟩ := toolLoop_all_ok tools message.id confirm keep
    message.tool_calls 0 [] [] 0 (fun j hj => by simpa using hacc j hj) hok
  refine ⟨_,
    by rw [toolNodeCall_of_ne_nil message tools confirm keep hne]; exact hloop,
    rfl, rfl, ?_, ?_⟩
  · have hlen := congrArg List.length hkeys
    simpa using hlen
  · simpa using hkeys

/-- Witness for C3: both scenario calls accepted and kept. -/
theorem C3_all_accepted_kept_witness :
    ∃ r, toolNodeCall msgTwo [searchTool, editTool] allYes allYes = Except.ok r ∧
      r.cmd.goto = "assistant_node" ∧
      r.cmd.constraints = none ∧
      r.cmd.messages.length = msgTwo.tool_calls.length ∧
      r.cmd.messages.map MsgUpdate.callKey
        = msgTwo.tool_calls.map (fun tc => some (tc.name, tc.id)) :=
  C3_all_accepted_kept msgTwo [searchTool, editTool] allYes allYes
    (by simp)
    (fun j hj => rfl)
    (fun j hj => rfl)
    (fun tc htc => by
      have he : tc = searchCall ∨ tc = editCall := by simpa [msgTwo] using htc
      rcases he with he | he
      · subst he; exact ⟨Json.str "ok", rfl⟩
      · subst he; exact ⟨Json.str "edited", rfl⟩)

/-- C4: with an empty tool catalog the arbitration is a no-op
pass-through: destination `"assistant_node"`, empty messages, no
constraints key, no tool invoked, no operator prompt — whatever tool
calls the assistant message carries. -/
theorem C4_empty_catalog_passthrough (message : AssistantMessage)
    (confirm keep : Nat → Bool) :
    toolNodeCall message [] confirm keep =
      Except.ok ⟨⟨"assistant_node", [], none⟩, [], 0⟩ := rfl

/-- C5: an accepted tool call whose raw result the operator rejects at
the review step yields a `ToolMessage` (at the call's position in the
batch) whose content is the serialized discard placeholder — not the raw
result — while its `name` and `tool_call_id` are exactly those of the
original request. -/
theorem C5_discard_on_review (message : AssistantMessage) (tools : List Tool)
    (confirm keep : Nat → Bool) (k : Nat) (tc : ToolCall) (raw : Json)
    (hne : tools ≠ [])
    (hacc : ∀ j, j < message.tool_calls.length → confirm j = true)
    (hok : ∀ tc' ∈ message.tool_calls, invokeOk tools tc')
    (htc : message.tool_calls[k]? = some tc)
    (hraw : resolveRun tools tc = Except.ok raw)
    (hkeep : keep k = false) :
    ∃ r, toolNodeCall message tools confirm keep = Except.ok r ∧
      r.cmd.messages[k]? = some (MsgUpdate.toolMsg
        (Json.dumps discardPlaceholder) tc.name tc.id) := by
  obtain ⟨outs, hloop, _, helts⟩ := toolLoop_all_ok tools message.id confirm keep
    message.tool_calls 0 [] [] 0 (fun j hj => by simpa using hacc j hj) hok
  refine ⟨_,
    by rw [toolNodeCall_of_ne_nil message tools confirm keep hne]; exact hloop, ?_⟩
  have h := helts k tc raw htc hraw
  rw [show (0 + k) = k from by omega, hkeep] at h
  simpa using h

/-- Witness for C5: both scenario calls accepted, every result rejected
at review; the "edit" call's emitted message carries the discard
placeholder with the original name and id. -/
theorem C5_discard_on_review_witness :
    ∃ r, toolNodeCall msgTwo [searchTool, editTool] allYes allNo = Except.ok r ∧
      r.cmd.messages[1]? = some (MsgUpdate.toolMsg
        (Json.dumps discardPlaceholder) editCall.name editCall.id) :=
  C5_discard_on_review msgTwo [searchTool, editTool] allYes allNo 1 editCall
    (Json.str "edited")
    (by simp)
    (fun j hj => rfl)
    (fun tc htc => by
      have he : tc = searchCall ∨ tc = editCall := by simpa [msgTwo] using htc
      rcases he with he | he
      · subst he; exact ⟨Json.str "ok", rfl⟩
      · subst he; exact ⟨Json.str "edited", rfl⟩)
    rfl
    rfl
    rfl

/-- C6: the constraint produced for a declined call has `type` `"avoid"`
and `source` `"declined_tool"`; its description is the fixed function
`"Do not use " ++ name ++ " with arguments: " ++ json.dumps(args)` of the
tool name and the exact arguments — so two declines with equal name and
equal arguments give identical descriptions — and the description
contains both the tool name and the serialized declined arguments. -/
theorem C6_declined_constraint_shape (message : AssistantMessage) (tools : List Tool)
    (confirm keep : Nat → Bool) (tc : ToolCall)
    (hne : tools ≠ [])
    (h0 : message.tool_calls[0]? = some tc)
    (hdec : confirm 0 = false) :
    ∃ r, toolNodeCall message tools confirm keep = Except.ok r ∧
      r.cmd.constraints = some [constraintFor tc] ∧
      (constraintFor tc).type = "avoid" ∧
      (constraintFor tc).source = "declined_tool" ∧
      (constraintFor tc).description
        = "Do not use " ++ tc.name ++ " with arguments: " ++ Json.dumps tc.args ∧
      (∀ tc₂ : ToolCall, tc₂.name = tc.name → tc₂.args = tc.args →
        (constraintFor tc₂).description = (constraintFor tc).description) ∧
      (∃ s t : String, (constraintFor tc).description = s ++ tc.name ++ t) ∧
      (∃ s : String, (constraintFor tc).description = s ++ Json.dumps tc.args) := by
  have hlen : 0 < message.tool_calls.length := by
    cases hcs : message.tool_calls with
    | nil => rw [hcs] at h0; simp at h0
    | cons a l => simp
  obtain ⟨tc', htc', hloop⟩ := toolLoop_decline tools message.id confirm keep 0
    message.tool_calls 0 [] [] 0 hlen
    (fun j hj => absurd hj (by omega))
    (fun tc'' h => absurd h (by simp))
    (by simpa using hdec)
  have he : tc = tc' := by
    rw [h0] at htc'
    exact Option.some_inj.mp htc'
  rw [← he] at hloop
  refine ⟨_,
    by rw [toolNodeCall_of_ne_nil message tools confirm keep hne]; exact hloop,
    rfl, rfl, rfl, rfl, ?_, ?_, ?_⟩
  · intro tc₂ hn ha
    simp [constraintFor, hn, ha]
  · exact ⟨"Do not use ", " with arguments: " ++ Json.dumps tc.args, by
      simp [constraintFor, String.append_assoc]⟩
  · exact ⟨"Do not use " ++ tc.name ++ " with arguments: ", by
      simp [constraintFor, String.append_assoc]⟩

/-- Witness for C6: the "search" call of the scenario declined outright. -/
theorem C6_declined_constraint_shape_witness :
    ∃ r, toolNodeCall msgTwo [searchTool, editTool] allNo allYes = Except.ok r ∧
      r.cmd.constraints = some [constraintFor searchCall] ∧
      (constraintFor searchCall).type = "avoid" ∧
      (constraintFor searchCall).source = "declined_tool" ∧
      (constraintFor searchCall).description
        = "Do not use " ++ searchCall.name ++ " with arguments: "
          ++ Json.dumps searchCall.args ∧
      (∀ tc₂ : ToolCall, tc₂.name = searchCall.name → tc₂.args = searchCall.args →
        (constraintFor tc₂).description = (constraintFor searchCall).description) ∧
      (∃ s t : String,
        (constraintFor searchCall).description = s ++ searchCall.name ++ t) ∧
      (∃ s : String,
        (constraintFor searchCall).description = s ++ Json.dumps searchCall.args) :=
  C6_declined_constraint_shape msgTwo [searchTool, editTool] allNo allYes searchCall
    (by simp)
    rfl
    rfl

/-- C10: an assistant message with no tool calls and a non-empty catalog
passes straight through: destination `"assistant_node"`, an empty message
list, no constraints key, no tool invoked and no operator prompt. -/
theorem C10_no_tool_calls_passthrough (message : AssistantMessage) (tools : List Tool)
    (confirm keep : Nat → Bool)
    (hne : tools ≠ [])
    (hnone : message.tool_calls = []) :
    toolNodeCall message tools confirm keep =
      Except.ok ⟨⟨"assistant_node", [], none⟩, [], 0⟩ := by
  rw [toolNodeCall_of_ne_nil message tools confirm keep hne, hnone]
  simp [toolLoop]

/-- Witness for C10 at a concrete call-free message. -/
theorem C10_no_tool_calls_passthrough_witness :
    toolNodeCall msgNone [searchTool] allYes allYes =
      Except.ok ⟨⟨"assistant_node", [], none⟩, [], 0⟩ :=
  C10_no_tool_calls_passthrough msgNone [searchTool] allYes allYes (by simp) rfl
